import Mathlib

/-!
Verification of webserver.c: request parsing, percent-decoding, MIME lookup and
response framing.

A shallow embedding of `src/webserver.c`.

Conventions.
* A byte is a natural number (its value as `unsigned char`).
* A C string passed to a function is given as the list of its bytes before the
  terminating NUL.  Where the program re-reads a raw memory buffer as a C string
  (the receive buffer, the buffer filled by `url_decode`), the embedding applies
  `cstr`, which cuts the buffer at its first NUL byte.
* The receive buffer is a fresh 100 MB allocation; its bytes after the received
  ones are taken to be zero, so the string `regexec` sees is `cstr` of the
  received bytes.
* The filesystem is a function from a path to the content of the file that
  `open(path, O_RDONLY)` yields, or `none` when `open` fails.  A `read` returns all
  the bytes asked for that the file still has.
* A call of `send` delivers the whole buffer it is given.
* An uninitialised `int` holds an arbitrary value, the parameter `indet`.
-/

namespace Webserver

/-- The bytes of an ASCII literal. -/
def ascii (s : String) : List Nat := s.toList.map Char.toNat

/-- The constant `BUFFER_SIZE` of the source. -/
def BUFFER_SIZE : Nat := 104857600

/-- The C string held at the start of a memory region: its bytes before the first NUL. -/
def cstr (mem : List Nat) : List Nat := mem.takeWhile (fun c => c != 0)

/-! ## get_file_extension -/

/-- Scan of `strrchr`: walks the string once and remembers the last index holding `c`. -/
def strrchr_from (c : Nat) : List Nat → Nat → Option Nat → Option Nat
  | [], _, last => last
  | x :: xs, i, last => strrchr_from c xs (i + 1) (if x = c then some i else last)

/-- The libc `strrchr`, returning the index of the last occurrence instead of a pointer. -/
def strrchr (s : List Nat) (c : Nat) : Option Nat := strrchr_from c s 0 none

/-- The function `get_file_extension`: `(!dot || dot == file_name) ? "" : dot + 1`. -/
def get_file_extension (file_name : List Nat) : List Nat :=
  match strrchr file_name 46 with
  | none => []
  | some dot => if dot = 0 then [] else file_name.drop (dot + 1)

/-! ## get_mime_type -/

/-- The libc `tolower` in the C locale. -/
def tolower (c : Nat) : Nat := if 65 ≤ c ∧ c ≤ 90 then c + 32 else c

/-- The libc `strcasecmp` in the C locale: difference of the first pair of bytes that
differ after lowering, the end of a string counting as the byte 0. -/
def strcasecmp : List Nat → List Nat → Int
  | [], [] => 0
  | [], c2 :: _ => 0 - (tolower c2 : Int)
  | c1 :: _, [] => (tolower c1 : Int) - 0
  | c1 :: r1, c2 :: r2 =>
    if tolower c1 = tolower c2 then strcasecmp r1 r2
    else (tolower c1 : Int) - (tolower c2 : Int)

/-- The function `get_mime_type`. -/
def get_mime_type (file_ext : List Nat) : List Nat :=
  if strcasecmp file_ext (ascii "html") = 0 ∨ strcasecmp file_ext (ascii "htm") = 0 then
    ascii "text/html"
  else if strcasecmp file_ext (ascii "txt") = 0 then
    ascii "text/plain"
  else if strcasecmp file_ext (ascii "jpg") = 0 ∨ strcasecmp file_ext (ascii "jpeg") = 0 then
    ascii "image/jpeg"
  else if strcasecmp file_ext (ascii "png") = 0 then
    ascii "image/png"
  else
    ascii "application/octet-stream"

/-- The string with every ASCII upper-case letter lowered. -/
def lowercase (s : List Nat) : List Nat := s.map tolower

/-! ## url_decode -/

/-- The libc `isspace` in the C locale. -/
def isspace (c : Nat) : Bool := c == 32 || (9 ≤ c && c ≤ 13)

/-- The libc `isxdigit`. -/
def isxdigit (c : Nat) : Bool :=
  (48 ≤ c && c ≤ 57) || (65 ≤ c && c ≤ 70) || (97 ≤ c && c ≤ 102)

/-- Value of a hexadecimal digit. -/
def hexval (c : Nat) : Nat :=
  if c ≤ 57 then c - 48 else if c ≤ 70 then c - 55 else c - 87

/-- The call `sscanf(input, "%2x", &hex_val)`, returning the value `hex_val` holds
afterwards as a 32-bit pattern.  White space is skipped, then at most two characters
are read: an optional sign and hexadecimal digits (a `0x` that fills the width reads
as the digit `0`).  On an input or matching failure nothing is stored and `hex_val`
keeps the value it had. -/
def sscanf_2x (hex_val : Nat) (input : List Nat) : Nat :=
  match input.dropWhile isspace with
  | [] => hex_val
  | c :: rest =>
    if c = 43 ∨ c = 45 then
      match rest with
      | [] => hex_val
      | d :: _ =>
        if isxdigit d then
          (if c = 45 then (4294967296 - hexval d) % 4294967296 else hexval d)
        else hex_val
    else if isxdigit c then
      match rest with
      | [] => hexval c
      | d :: _ => if isxdigit d then 16 * hexval c + hexval d else hexval c
    else hex_val

/-- One iteration of the `for` loop of `url_decode`, its `i++` included.  The state is
`(i, decoded[0..decoded_len))`; `indet i` is the indeterminate value the
uninitialised `hex_val` holds in the iteration at index `i`. -/
def url_decode_step (indet : Nat → Nat) (src : List Nat) (st : Nat × List Nat) :
    Nat × List Nat :=
  if src.getD st.1 0 = 37 ∧ st.1 + 2 < src.length then
    (st.1 + 2 + 1, st.2 ++ [sscanf_2x (indet st.1) (src.drop (st.1 + 1)) % 256])
  else
    (st.1 + 1, st.2 ++ [src.getD st.1 0])

/-- The `for` loop of `url_decode`, run for at most `fuel` iterations. -/
def url_decode_loop (indet : Nat → Nat) (src : List Nat) : Nat → Nat × List Nat → List Nat
  | 0, st => st.2
  | fuel + 1, st =>
    if st.1 < src.length then url_decode_loop indet src fuel (url_decode_step indet src st)
    else st.2

/-- The function `url_decode`: the bytes written to `decoded` before the terminator.
Every iteration advances `i`, so `src_len` iterations are enough. -/
def url_decode (indet : Nat → Nat) (src : List Nat) : List Nat :=
  url_decode_loop indet src src.length (0, [])

/-- The string has a `%` that can start an escape: at an index `i` with `i + 2 < length`. -/
def HasEscape (s : List Nat) : Prop :=
  ∃ i, i + 2 < s.length ∧ s.getD i 0 = 37

/-- The decoding of the input suffix that starts at index `i`, by recursion on the
suffix.  An auxiliary form of the loop of `url_decode`, proved equal to it below. -/
def url_decode_from (indet : Nat → Nat) : Nat → List Nat → List Nat
  | _, [] => []
  | _, [c] => [c]
  | _, [c, x] => [c, x]
  | i, c :: x :: y :: rest =>
    if c = 37 then
      (sscanf_2x (indet i) (x :: y :: rest) % 256) :: url_decode_from indet (i + 2 + 1) rest
    else c :: url_decode_from indet (i + 1) (x :: y :: rest)

/-! ## The request regex -/

/-- The pieces the pattern of `handle_client` is made of. -/
inductive Piece where
  /-- An ordinary character, matching itself. -/
  | lit (c : Nat)
  /-- The parenthesised subexpression `([^c]*)`. -/
  | group_star_not (c : Nat)

/-- The pattern `"^GET /([^ ]*) HTTP/1"` after the anchor `^`. -/
def request_regex : List Piece :=
  (ascii "GET /").map Piece.lit ++ [Piece.group_star_not 32] ++ (ascii " HTTP/1").map Piece.lit

/-- Matching of `[^c]*` followed by the continuation `k`: the longest run is tried
first, then shorter ones.  `k` receives the remaining input and its offset. -/
def star_not (c : Nat) (k : List Nat → Nat → Option (Nat × List (Nat × Nat))) :
    List Nat → Nat → Option (Nat × List (Nat × Nat))
  | [], pos => k [] pos
  | x :: xs, pos =>
    if x ≠ c then
      match star_not c k xs (pos + 1) with
      | some r => some r
      | none => k (x :: xs) pos
    else k (x :: xs) pos

/-- Backtracking matcher: matches the pieces against a prefix of the input, which
starts at offset `pos`.  Returns the end offset of the match and the offsets
`(rm_so, rm_eo)` of the groups, in order. -/
def match_pieces : List Piece → List Nat → Nat → Option (Nat × List (Nat × Nat))
  | [], _, pos => some (pos, [])
  | Piece.lit _ :: _, [], _ => none
  | Piece.lit c :: ps, x :: xs, pos => if x = c then match_pieces ps xs (pos + 1) else none
  | Piece.group_star_not c :: ps, s, pos =>
    star_not c (fun s1 pos1 => (match_pieces ps s1 pos1).map (fun r => (r.1, (pos, pos1) :: r.2))) s pos

/-- The call `regexec` for a pattern anchored with `^`: a match can only start at
offset 0.  Returns the array `matches` of the source: entry 0 is the whole match, entry `n` is
group `n`. -/
def regexec (pattern : List Piece) (string : List Nat) : Option (List (Nat × Nat)) :=
  (match_pieces pattern string 0).map (fun r => (0, r.1) :: r.2)

/-- The parsing step of `handle_client` (lines 138-144): `regexec` on the receive
buffer, then `buffer[matches[1].rm_eo] = 0` and the C string at
`buffer + matches[1].rm_so`. -/
def parse_request (buffer : List Nat) : Option (List Nat) :=
  match regexec request_regex (cstr buffer) with
  | none => none
  | some rm =>
    some (cstr ((buffer.set (rm.getD 1 (0, 0)).2 0).drop (rm.getD 1 (0, 0)).1))

/-- The request grammar of the specification: `GET /<target> HTTP/1` at the start of
the bytes, `<target>` without a space. -/
def MatchesGrammar (b t : List Nat) : Prop :=
  ∃ rest, b = ascii "GET /" ++ t ++ ascii " HTTP/1" ++ rest ∧ 32 ∉ t

/-! ## build_http_response -/

/-- What `snprintf(buf, size, ...)` stores before the terminator. -/
def snprintf (size : Nat) (out : List Nat) : List Nat := out.take (size - 1)

/-- The format `"HTTP/1.1 200 OK\r\nContent-Type: %s\r\n\r\n"` filled in. -/
def header_200 (mime_type : List Nat) : List Nat :=
  ascii "HTTP/1.1 200 OK\r\nContent-Type: " ++ mime_type ++ ascii "\r\n\r\n"

/-- The literal of the 404 branch. -/
def response_404 : List Nat :=
  ascii "HTTP/1.1 404 Not Found\r\nContent-Type: text/plain\r\n\r\n404 Not Found"

/-- The call `read(fd, buf, count)` on a regular file at `offset`: the next `count`
bytes, fewer at the end of the file. -/
def read (content : List Nat) (offset count : Nat) : List Nat :=
  (content.drop offset).take count

/-- The `while ((bytes_read = read(...)) > 0)` loop of `build_http_response`, run for at
most `fuel` iterations; `response` is `response[0..*response_len)`. -/
def read_loop (content : List Nat) : Nat → Nat → List Nat → List Nat
  | 0, _, response => response
  | fuel + 1, offset, response =>
    if 0 < (read content offset (BUFFER_SIZE - response.length)).length then
      read_loop content fuel
        (offset + (read content offset (BUFFER_SIZE - response.length)).length)
        (response ++ read content offset (BUFFER_SIZE - response.length))
    else response

/-- The function `build_http_response`: the bytes written to `response` and the value
stored in `*response_len`.  Every iteration of the read loop but the last reads at
least one byte, so `length content + 1` iterations are enough. -/
def build_http_response (fs : List Nat → Option (List Nat)) (file_name file_ext : List Nat) :
    List Nat × Nat :=
  match fs file_name with
  | none =>
    (snprintf BUFFER_SIZE response_404, (cstr (snprintf BUFFER_SIZE response_404)).length)
  | some content =>
    (read_loop content (content.length + 1) 0
        (cstr (snprintf BUFFER_SIZE (header_200 (get_mime_type file_ext)))),
      (read_loop content (content.length + 1) 0
        (cstr (snprintf BUFFER_SIZE (header_200 (get_mime_type file_ext))))).length)

/-! ## handle_client -/

/-- What a run of `handle_client` does on its connection before closing it. -/
inductive Outcome where
  /-- The function `send` is never called. -/
  | silent
  /-- One call of `send` with these bytes, taken to be delivered whole. -/
  | sent (bytes : List Nat)
  /-- The call `strcpy` wrote past the 32 bytes of `file_ext`: undefined behaviour. -/
  | overflow
  deriving DecidableEq

/-- The function `handle_client`.  `bytes_received` is the result of `recv` and
`buffer` the bytes it stored. -/
def handle_client (indet : Nat → Nat) (fs : List Nat → Option (List Nat))
    (bytes_received : Int) (buffer : List Nat) : Outcome :=
  if 0 < bytes_received then
    match parse_request buffer with
    | some url_encoded_file_name =>
      if (get_file_extension (cstr (url_decode indet url_encoded_file_name))).length < 32 then
        Outcome.sent
          ((build_http_response fs (cstr (url_decode indet url_encoded_file_name))
              (get_file_extension (cstr (url_decode indet url_encoded_file_name)))).1.take
            (build_http_response fs (cstr (url_decode indet url_encoded_file_name))
              (get_file_extension (cstr (url_decode indet url_encoded_file_name)))).2)
      else Outcome.overflow
    | none => Outcome.silent
  else Outcome.silent

/-- Whether `needle` occurs in `hay` as a contiguous block. -/
def Carries (hay needle : List Nat) : Prop := ∃ pre post, hay = pre ++ needle ++ post

/-- A filesystem holding the single file `name`. -/
def single_file (name content : List Nat) : List Nat → Option (List Nat) :=
  fun p => if p = name then some content else none


/-! ## Properties of get_file_extension -/

theorem strrchr_from_absent (c : Nat) :
    ∀ (s : List Nat) (i : Nat) (last : Option Nat), c ∉ s → strrchr_from c s i last = last
  | [], _, _, _ => rfl
  | x :: xs, i, last, h => by
    have hx : x ≠ c := fun e => h (by simp [e])
    have hxs : c ∉ xs := fun e => h (by simp [e])
    simp [strrchr_from, hx, strrchr_from_absent c xs (i + 1) last hxs]

theorem strrchr_from_last (c : Nat) :
    ∀ (pre suf : List Nat) (i : Nat) (last : Option Nat), c ∉ suf →
      strrchr_from c (pre ++ c :: suf) i last = some (i + pre.length)
  | [], suf, i, last, h => by
    simp [strrchr_from, strrchr_from_absent c suf (i + 1) (some i) h]
  | x :: pre, suf, i, last, h => by
    have ih := strrchr_from_last c pre suf (i + 1) (if x = c then some i else last) h
    show strrchr_from c (pre ++ c :: suf) (i + 1) (if x = c then some i else last) = _
    rw [ih]
    exact congrArg some (by simp only [List.length_cons]; omega)

theorem split_at_last (c : Nat) :
    ∀ s : List Nat, c ∈ s → ∃ pre suf, s = pre ++ c :: suf ∧ c ∉ suf
  | [], h => by simp at h
  | x :: xs, h => by
    by_cases hxs : c ∈ xs
    · obtain ⟨pre, suf, e, hs⟩ := split_at_last c xs hxs
      exact ⟨x :: pre, suf, by simp [e], hs⟩
    · have hx : c = x := by
        rcases List.mem_cons.mp h with e | e
        · exact e
        · exact absurd e hxs
      exact ⟨[], xs, by simp [hx], hxs⟩

theorem get_file_extension_no_dot (p : List Nat) (h : 46 ∉ p) : get_file_extension p = [] := by
  simp [get_file_extension, strrchr, strrchr_from_absent 46 p 0 none h]

theorem get_file_extension_split (pre suf : List Nat) (h : 46 ∉ suf) :
    get_file_extension (pre ++ 46 :: suf) = if pre = [] then [] else suf := by
  unfold get_file_extension strrchr
  rw [strrchr_from_last 46 pre suf 0 none h]
  cases pre with
  | nil => simp
  | cons x xs =>
    have e : (x :: xs ++ 46 :: suf).drop (0 + (x :: xs).length + 1) = suf := by
      simp
    simp only [e]
    simp

theorem get_file_extension_suffix (p : List Nat) : get_file_extension p <:+ p := by
  by_cases hp : 46 ∈ p
  · obtain ⟨pre, suf, e, hs⟩ := split_at_last 46 p hp
    rw [e, get_file_extension_split pre suf hs]
    split
    · exact List.nil_suffix
    · exact ⟨pre ++ [46], by simp⟩
  · rw [get_file_extension_no_dot p hp]
    exact List.nil_suffix

/-- C8. For every path `p`, `get_file_extension p` is the part of `p` strictly after
its last `.`; it is empty when `p` has no `.` or when the last `.` is the first
character; it never contains a `.` and is always a suffix of `p`. -/
theorem get_file_extension_spec (p : List Nat) :
    (46 ∉ p → get_file_extension p = []) ∧
    (∀ pre suf, p = pre ++ 46 :: suf → 46 ∉ suf →
      get_file_extension p = if pre = [] then [] else suf) ∧
    46 ∉ get_file_extension p ∧
    get_file_extension p <:+ p := by
  refine ⟨get_file_extension_no_dot p, ?_, ?_, get_file_extension_suffix p⟩
  · intro pre suf e h
    rw [e]
    exact get_file_extension_split pre suf h
  · by_cases hp : 46 ∈ p
    · obtain ⟨pre, suf, e, hs⟩ := split_at_last 46 p hp
      rw [e, get_file_extension_split pre suf hs]
      split
      · simp
      · exact hs
    · rw [get_file_extension_no_dot p hp]
      simp

/-! ## Properties of get_mime_type -/

theorem tolower_ne_zero (c : Nat) (h : c ≠ 0) : tolower c ≠ 0 := by
  unfold tolower
  split <;> omega

theorem tolower_idem (c : Nat) : tolower (tolower c) = tolower c := by
  unfold tolower
  split_ifs <;> omega

/-- Comparison with a lower-case, NUL-free literal: `strcasecmp` returns 0 exactly
when the lowered string is the literal. -/
theorem strcasecmp_eq_zero :
    ∀ (e l : List Nat), 0 ∉ e → (∀ c ∈ l, tolower c = c ∧ c ≠ 0) →
      (strcasecmp e l = 0 ↔ lowercase e = l)
  | [], [], _, _ => by simp [strcasecmp, lowercase]
  | [], c2 :: _, _, hl => by
    have h2 := hl c2 (by simp)
    have : (tolower c2 : Int) ≠ 0 := by
      rw [h2.1]
      exact_mod_cast h2.2
    simp only [strcasecmp, lowercase, List.map_nil]
    constructor
    · intro h
      omega
    · intro h
      cases h
  | c1 :: _, [], he, _ => by
    have h1 : c1 ≠ 0 := fun e => he (by simp [e])
    have : (tolower c1 : Int) ≠ 0 := by exact_mod_cast tolower_ne_zero c1 h1
    simp only [strcasecmp, lowercase, List.map_cons]
    constructor
    · intro h
      omega
    · intro h
      cases h
  | c1 :: r1, c2 :: r2, he, hl => by
    have h2 := hl c2 (by simp)
    have her : 0 ∉ r1 := fun e => he (by simp [e])
    have hlr : ∀ c ∈ r2, tolower c = c ∧ c ≠ 0 := fun c hc => hl c (by simp [hc])
    have ih := strcasecmp_eq_zero r1 r2 her hlr
    simp only [strcasecmp, lowercase, List.map_cons, List.cons.injEq]
    rw [h2.1]
    by_cases hc : tolower c1 = c2
    · simp only [hc, if_true, true_and]
      exact ih
    · simp only [hc, if_false, false_and, iff_false]
      intro h
      apply hc
      omega

theorem strcasecmp_lowercase :
    ∀ (e l : List Nat), strcasecmp (lowercase e) l = strcasecmp e l
  | [], [] => rfl
  | [], _ :: _ => rfl
  | c1 :: _, [] => by simp [strcasecmp, lowercase, tolower_idem]
  | c1 :: r1, c2 :: r2 => by
    have ih := strcasecmp_lowercase r1 r2
    simp only [lowercase] at ih
    simp [strcasecmp, lowercase, tolower_idem, ih]

theorem get_mime_type_eq_table (e : List Nat) (h : 0 ∉ e) :
    get_mime_type e =
      (if lowercase e = ascii "html" ∨ lowercase e = ascii "htm" then ascii "text/html"
       else if lowercase e = ascii "txt" then ascii "text/plain"
       else if lowercase e = ascii "jpg" ∨ lowercase e = ascii "jpeg" then ascii "image/jpeg"
       else if lowercase e = ascii "png" then ascii "image/png"
       else ascii "application/octet-stream") := by
  unfold get_mime_type
  simp only [strcasecmp_eq_zero e (ascii "html") h (by decide),
    strcasecmp_eq_zero e (ascii "htm") h (by decide),
    strcasecmp_eq_zero e (ascii "txt") h (by decide),
    strcasecmp_eq_zero e (ascii "jpg") h (by decide),
    strcasecmp_eq_zero e (ascii "jpeg") h (by decide),
    strcasecmp_eq_zero e (ascii "png") h (by decide)]

/-- C7. For every extension string `e` (a C string: no NUL byte),
`get_mime_type e` is `text/html` when `e` is `html` or `htm` ignoring ASCII case,
`text/plain` for `txt`, `image/jpeg` for `jpg` or `jpeg`, `image/png` for `png`, and
`application/octet-stream` for every other `e`, the empty one included; and
`get_mime_type e = get_mime_type (lowercase e)`. -/
theorem get_mime_type_table (e : List Nat) (h : 0 ∉ e) :
    get_mime_type e =
      (if lowercase e = ascii "html" ∨ lowercase e = ascii "htm" then ascii "text/html"
       else if lowercase e = ascii "txt" then ascii "text/plain"
       else if lowercase e = ascii "jpg" ∨ lowercase e = ascii "jpeg" then ascii "image/jpeg"
       else if lowercase e = ascii "png" then ascii "image/png"
       else ascii "application/octet-stream") ∧
    get_mime_type [] = ascii "application/octet-stream" ∧
    get_mime_type e = get_mime_type (lowercase e) := by
  refine ⟨get_mime_type_eq_table e h, by decide, ?_⟩
  unfold get_mime_type
  simp only [strcasecmp_lowercase]

theorem get_mime_type_table_witness :
    0 ∉ ascii "JPeG" ∧ get_mime_type (ascii "JPeG") = ascii "image/jpeg" :=
  ⟨by decide, by
    have h := (get_mime_type_table (ascii "JPeG") (by decide)).1
    rw [h]
    decide⟩

/-! ## Properties of build_http_response -/

theorem snprintf_404 : snprintf BUFFER_SIZE response_404 = response_404 := by decide

theorem cstr_404 : cstr response_404 = response_404 := by decide

theorem build_http_response_none (fs : List Nat → Option (List Nat))
    (file_name file_ext : List Nat) (h : fs file_name = none) :
    build_http_response fs file_name file_ext = (response_404, response_404.length) := by
  unfold build_http_response
  rw [h]
  simp only [snprintf_404, cstr_404]

/-- C5. For every file name and extension, when the file cannot be opened
`build_http_response` writes exactly the 404 literal and stores its length in
`*response_len`, whatever the extension. -/
theorem build_http_response_404 (fs : List Nat → Option (List Nat))
    (file_name file_ext : List Nat) (h : fs file_name = none) :
    build_http_response fs file_name file_ext =
      (ascii "HTTP/1.1 404 Not Found\r\nContent-Type: text/plain\r\n\r\n404 Not Found",
        (ascii "HTTP/1.1 404 Not Found\r\nContent-Type: text/plain\r\n\r\n404 Not Found").length) :=
  build_http_response_none fs file_name file_ext h

theorem build_http_response_404_witness :
    build_http_response (fun _ => none) (ascii "missing.png") (ascii "png") =
      (ascii "HTTP/1.1 404 Not Found\r\nContent-Type: text/plain\r\n\r\n404 Not Found", 65) :=
  build_http_response_404 (fun _ => none) (ascii "missing.png") (ascii "png") rfl

/-! ## Properties of url_decode -/

theorem drop_eq_cons :
    ∀ (src : List Nat) (i c : Nat) (tl : List Nat), src.drop i = c :: tl →
      i < src.length ∧ src.getD i 0 = c ∧ src.drop (i + 1) = tl ∧
        src.length = i + 1 + tl.length
  | [], i, c, tl, h => by simp at h
  | x :: xs, 0, c, tl, h => by
    simp only [List.drop_zero, List.cons.injEq] at h
    obtain ⟨h1, h2⟩ := h
    subst h1 h2
    simp
    omega
  | x :: xs, i + 1, c, tl, h => by
    have ih := drop_eq_cons xs i c tl (by simpa using h)
    obtain ⟨h1, h2, h3, h4⟩ := ih
    refine ⟨by simp; omega, by simpa using h2, by simpa using h3, by simp; omega⟩

theorem drop_eq_nil_ge (src : List Nat) (i : Nat) (h : src.drop i = []) : src.length ≤ i := by
  have := congrArg List.length h
  simp at this
  omega

/-- One iteration of the loop agrees with one unfolding of the recursive form. -/
theorem url_decode_step_spec (indet : Nat → Nat) (src : List Nat) (st : Nat × List Nat)
    (h : st.1 < src.length) :
    st.1 < (url_decode_step indet src st).1 ∧
    (url_decode_step indet src st).1 ≤ src.length ∧
    (url_decode_step indet src st).2 ++
        url_decode_from indet (url_decode_step indet src st).1
          (src.drop (url_decode_step indet src st).1) =
      st.2 ++ url_decode_from indet st.1 (src.drop st.1) := by
  obtain ⟨i, d⟩ := st
  simp only at h ⊢
  cases htl : src.drop i with
  | nil => exact absurd (drop_eq_nil_ge src i htl) (by omega)
  | cons c tl =>
    obtain ⟨h1, h2, h3, h4⟩ := drop_eq_cons src i c tl htl
    unfold url_decode_step
    simp only [h2, h3]
    by_cases hc : c = 37 ∧ i + 2 < src.length
    · rw [if_pos hc]
      obtain ⟨hc1, hc2⟩ := hc
      match tl, h3, h4 with
      | [], _, h4 => simp at h4; omega
      | [x], _, h4 => simp at h4; omega
      | x :: y :: rest, h3, h4 =>
        have h5 := (drop_eq_cons src (i + 1) x (y :: rest) h3).2.2.1
        have h6 := (drop_eq_cons src (i + 1 + 1) y rest h5).2.2.1
        have h7 : src.drop (i + 2 + 1) = rest := h6
        simp only [h7]
        refine ⟨by omega, by omega, ?_⟩
        simp [url_decode_from, hc1]
    · rw [if_neg hc]
      simp only [h3]
      refine ⟨by omega, by omega, ?_⟩
      match tl, h4 with
      | [], _ => simp [url_decode_from]
      | [x], _ => simp [url_decode_from]
      | x :: y :: rest, h4 =>
        have hc1 : c ≠ 37 := by
          intro e
          apply hc
          refine ⟨e, ?_⟩
          simp at h4
          omega
        simp [url_decode_from, hc1]

/-- With enough fuel the loop computes the recursive form: the loop terminates. -/
theorem url_decode_loop_eq (indet : Nat → Nat) (src : List Nat) :
    ∀ (fuel : Nat) (st : Nat × List Nat), st.1 ≤ src.length → src.length - st.1 ≤ fuel →
      url_decode_loop indet src fuel st = st.2 ++ url_decode_from indet st.1 (src.drop st.1)
  | 0, st, h1, h2 => by
    have : src.drop st.1 = [] := by
      apply List.drop_eq_nil_of_le
      omega
    simp [url_decode_loop, this, url_decode_from]
  | fuel + 1, st, h1, h2 => by
    unfold url_decode_loop
    by_cases h : st.1 < src.length
    · rw [if_pos h]
      obtain ⟨s1, s2, s3⟩ := url_decode_step_spec indet src st h
      rw [url_decode_loop_eq indet src fuel _ s2 (by omega), s3]
    · rw [if_neg h]
      have : src.drop st.1 = [] := by
        apply List.drop_eq_nil_of_le
        omega
      simp [this, url_decode_from]

theorem url_decode_eq_from (indet : Nat → Nat) (src : List Nat) :
    url_decode indet src = url_decode_from indet 0 src := by
  unfold url_decode
  rw [url_decode_loop_eq indet src src.length (0, []) (by simp) (by simp)]
  simp

theorem url_decode_from_length_le (indet : Nat → Nat) :
    ∀ (i : Nat) (s : List Nat), (url_decode_from indet i s).length ≤ s.length
  | _, [] => by simp [url_decode_from]
  | _, [_] => by simp [url_decode_from]
  | _, [_, _] => by simp [url_decode_from]
  | i, c :: x :: y :: rest => by
    have ih1 := url_decode_from_length_le indet (i + 2 + 1) rest
    have ih2 := url_decode_from_length_le indet (i + 1) (x :: y :: rest)
    unfold url_decode_from
    split
    · simp only [List.length_cons]
      omega
    · simp only [List.length_cons] at ih2 ⊢
      omega

theorem hasEscape_cons (c : Nat) (s : List Nat) (hc : c ≠ 37) :
    HasEscape (c :: s) ↔ HasEscape s := by
  constructor
  · rintro ⟨i, hi, hp⟩
    cases i with
    | zero => simp at hp; exact absurd hp hc
    | succ j => exact ⟨j, by simp at hi; omega, by simpa using hp⟩
  · rintro ⟨i, hi, hp⟩
    exact ⟨i + 1, by simp; omega, by simpa using hp⟩

theorem url_decode_from_no_escape (indet : Nat → Nat) :
    ∀ (i : Nat) (s : List Nat), ¬HasEscape s → url_decode_from indet i s = s
  | _, [], _ => rfl
  | _, [_], _ => rfl
  | _, [_, _], _ => rfl
  | i, c :: x :: y :: rest, h => by
    have hc : c ≠ 37 := fun e => h ⟨0, by simp, by simpa using e⟩
    have ht : ¬HasEscape (x :: y :: rest) := fun e => h ((hasEscape_cons c _ hc).mpr e)
    simp [url_decode_from, hc, url_decode_from_no_escape indet (i + 1) _ ht]

theorem url_decode_from_escape_lt (indet : Nat → Nat) :
    ∀ (i : Nat) (s : List Nat), HasEscape s → (url_decode_from indet i s).length < s.length
  | _, [], h => by
    obtain ⟨j, hj, _⟩ := h
    simp at hj
  | _, [_], h => by
    obtain ⟨j, hj, _⟩ := h
    simp at hj
  | _, [_, _], h => by
    obtain ⟨j, hj, _⟩ := h
    simp at hj
  | i, c :: x :: y :: rest, h => by
    unfold url_decode_from
    by_cases hc : c = 37
    · rw [if_pos hc]
      have := url_decode_from_length_le indet (i + 2 + 1) rest
      simp only [List.length_cons]
      omega
    · rw [if_neg hc]
      have := url_decode_from_escape_lt indet (i + 1) (x :: y :: rest)
        ((hasEscape_cons c _ hc).mp h)
      simp only [List.length_cons] at this ⊢
      omega

/-- C10. For every string `s`, `url_decode s` is no longer than `s`; an iteration at a
`%` with index `i`, `i + 2 < length s`, advances the index by three and emits one
byte, whatever follows the `%`; the lengths are equal exactly when `s` has no `%` at
such an index, and then `url_decode s = s`. -/
theorem url_decode_never_grows (indet : Nat → Nat) (s : List Nat) :
    (url_decode indet s).length ≤ s.length ∧
    (∀ st : Nat × List Nat, st.1 + 2 < s.length → s.getD st.1 0 = 37 →
      (url_decode_step indet s st).1 = st.1 + 3 ∧
      (url_decode_step indet s st).2.length = st.2.length + 1) ∧
    ((url_decode indet s).length = s.length ↔ ¬HasEscape s) ∧
    (¬HasEscape s → url_decode indet s = s) := by
  rw [url_decode_eq_from]
  refine ⟨url_decode_from_length_le indet 0 s, ?_, ?_, url_decode_from_no_escape indet 0 s⟩
  · intro st h1 h2
    unfold url_decode_step
    rw [if_pos ⟨h2, h1⟩]
    simp
  · constructor
    · intro h he
      have := url_decode_from_escape_lt indet 0 s he
      omega
    · intro h
      rw [url_decode_from_no_escape indet 0 s h]

/-! ## Properties of the request parser -/

theorem match_pieces_lits (ps : List Piece) :
    ∀ (l s : List Nat) (pos : Nat),
      match_pieces (l.map Piece.lit ++ ps) s pos =
        if s.take l.length = l then match_pieces ps (s.drop l.length) (pos + l.length)
        else none
  | [], s, pos => by simp
  | c :: l, [], pos => by simp [match_pieces]
  | c :: l, x :: xs, pos => by
    have ih := match_pieces_lits ps l xs (pos + 1)
    simp only [List.map_cons, List.cons_append, match_pieces, List.length_cons,
      List.take_succ_cons, List.drop_succ_cons, List.cons.injEq, ih]
    have e : pos + 1 + l.length = pos + (l.length + 1) := by omega
    by_cases hx : x = c
    · simp only [hx, if_true, true_and, List.append_eq]
      rw [ih, e]
    · simp [hx]

theorem match_pieces_http (s : List Nat) (pos : Nat) :
    match_pieces ((ascii " HTTP/1").map Piece.lit) s pos =
      if s.take 7 = ascii " HTTP/1" then some (pos + 7, []) else none := by
  have h := match_pieces_lits [] (ascii " HTTP/1") s pos
  rw [List.append_nil] at h
  rw [h]
  have e : (ascii " HTTP/1").length = 7 := rfl
  simp only [e, match_pieces]

theorem star_not_eq (c : Nat) (k : List Nat → Nat → Option (Nat × List (Nat × Nat)))
    (hk : ∀ x xs pos, x ≠ c → k (x :: xs) pos = none) :
    ∀ (s : List Nat) (pos : Nat),
      star_not c k s pos =
        k (s.dropWhile (fun x => x != c)) (pos + (s.takeWhile (fun x => x != c)).length)
  | [], pos => by simp [star_not]
  | x :: xs, pos => by
    by_cases hx : x = c
    · simp [star_not, hx]
    · have ih := star_not_eq c k hk xs (pos + 1)
      have hb : (x != c) = true := by simpa using hx
      unfold star_not
      rw [if_pos hx, ih, hk x xs pos hx, List.dropWhile_cons, List.takeWhile_cons]
      simp only [hb, if_true, List.length_cons]
      have e : pos + 1 + (List.takeWhile (fun x => x != c) xs).length =
          pos + ((List.takeWhile (fun x => x != c) xs).length + 1) := by omega
      rw [e]
      cases k (List.dropWhile (fun x => x != c) xs)
        (pos + ((List.takeWhile (fun x => x != c) xs).length + 1)) <;> rfl

/-- What `regexec` returns for the pattern of `handle_client`. -/
theorem regexec_request_eq (s : List Nat) :
    regexec request_regex s =
      if s.take 5 = ascii "GET /" ∧
          ((s.drop 5).dropWhile (fun x => x != 32)).take 7 = ascii " HTTP/1" then
        some [(0, 5 + ((s.drop 5).takeWhile (fun x => x != 32)).length + 7),
          (5, 5 + ((s.drop 5).takeWhile (fun x => x != 32)).length)]
      else none := by
  unfold regexec request_regex
  rw [List.append_assoc, match_pieces_lits]
  have e : (ascii "GET /").length = 5 := rfl
  simp only [e]
  by_cases h1 : s.take 5 = ascii "GET /"
  · simp only [h1, if_true, true_and, List.singleton_append, match_pieces, Nat.zero_add]
    rw [star_not_eq]
    · simp only [List.append_eq, List.nil_append, match_pieces_http]
      by_cases h2 : ((s.drop 5).dropWhile (fun x => x != 32)).take 7 = ascii " HTTP/1"
      · simp [h2]
      · simp [h2]
    · intro x xs pos hx
      simp only [List.append_eq, List.nil_append, match_pieces_http]
      have : ¬ List.take 7 (x :: xs) = ascii " HTTP/1" := by
        intro e2
        have := congrArg List.head? e2
        simp at this
        exact hx (by simpa [ascii] using this)
      rw [if_neg this]
      rfl
  · simp [h1]

theorem span_until (c : Nat) :
    ∀ (t r : List Nat), c ∉ t →
      (t ++ c :: r).takeWhile (fun x => x != c) = t ∧
        (t ++ c :: r).dropWhile (fun x => x != c) = c :: r
  | [], r, _ => by simp
  | x :: t, r, h => by
    have hx : x ≠ c := fun e => h (by simp [e])
    have ht : c ∉ t := fun e => h (by simp [e])
    have ih := span_until c t r ht
    have hb : (x != c) = true := by simpa using hx
    simp only [List.cons_append, List.takeWhile_cons, List.dropWhile_cons, hb, if_true, ih,
      and_self]

theorem takeWhile_append_all (f : Nat → Bool) :
    ∀ (l r : List Nat), (∀ x ∈ l, f x = true) →
      (l ++ r).takeWhile f = l ++ r.takeWhile f
  | [], r, _ => by simp
  | x :: l, r, h => by
    have hx : f x = true := h x (by simp)
    have ih := takeWhile_append_all f l r (fun y hy => h y (by simp [hy]))
    simp only [List.cons_append, List.takeWhile_cons, hx, if_true, ih]

theorem set_drop_append (a : Nat) :
    ∀ (p l : List Nat) (n : Nat), ((p ++ l).set (p.length + n) a).drop p.length = l.set n a
  | [], l, n => by simp
  | x :: p, l, n => by
    have ih := set_drop_append a p l n
    have e : (x :: p).length + n = (p.length + n) + 1 := by simp only [List.length_cons]; omega
    rw [e]
    simp

theorem set_at_length (a : Nat) :
    ∀ (t : List Nat) (x : Nat) (r : List Nat), (t ++ x :: r).set t.length a = t ++ a :: r
  | [], x, r => by simp
  | y :: t, x, r => by simp

theorem cstr_no_nul (b : List Nat) : 0 ∉ cstr b := by
  intro h
  have := List.mem_takeWhile_imp h
  simp at this

theorem cstr_append_dropWhile (b : List Nat) :
    cstr b ++ b.dropWhile (fun c => c != 0) = b :=
  List.takeWhile_append_dropWhile _ b

theorem cstr_stop (t r : List Nat) (h : 0 ∉ t) : cstr (t ++ 0 :: r) = t :=
  (span_until 0 t r h).1

/-- A buffer whose C string has the shape of the grammar parses to the target. -/
theorem parse_request_of_cstr (b t rest : List Nat)
    (hc : cstr b = ascii "GET /" ++ t ++ ascii " HTTP/1" ++ rest) (hs : 32 ∉ t) :
    parse_request b = some t := by
  have eg : ascii "GET /" = [71, 69, 84, 32, 47] := rfl
  have eh : ascii " HTTP/1" = [32, 72, 84, 84, 80, 47, 49] := rfl
  have h0 : 0 ∉ t := by
    intro h
    apply cstr_no_nul b
    rw [hc]
    simp [h]
  have hsp := span_until 32 t ([72, 84, 84, 80, 47, 49] ++ rest) hs
  have hd : (cstr b).drop 5 = t ++ 32 :: ([72, 84, 84, 80, 47, 49] ++ rest) := by
    rw [hc, eg, eh]
    simp
  have ht : (cstr b).take 5 = ascii "GET /" := by
    rw [hc, eg]
    simp
  have hb : b = [71, 69, 84, 32, 47] ++
      (t ++ 32 :: ([72, 84, 84, 80, 47, 49] ++ (rest ++ b.dropWhile (fun c => c != 0)))) := by
    conv_lhs => rw [← cstr_append_dropWhile b, hc, eg, eh]
    simp
  unfold parse_request
  rw [regexec_request_eq, hd, hsp.1, hsp.2, ht]
  have hcond : ascii "GET /" = ascii "GET /" ∧
      List.take 7 (32 :: ([72, 84, 84, 80, 47, 49] ++ rest)) = ascii " HTTP/1" :=
    ⟨rfl, by rw [eh]; simp⟩
  rw [if_pos hcond]
  simp only [List.getD_cons_succ, List.getD_cons_zero]
  have hset := set_drop_append 0 [71, 69, 84, 32, 47]
    (t ++ 32 :: ([72, 84, 84, 80, 47, 49] ++ (rest ++ b.dropWhile (fun c => c != 0)))) t.length
  rw [← hb] at hset
  have e5 : ([71, 69, 84, 32, 47] : List Nat).length = 5 := rfl
  rw [e5] at hset
  rw [hset, set_at_length, cstr_stop t _ h0]

/-- A buffer that parses has a C string of the shape of the grammar. -/
theorem cstr_of_parse_request (b t : List Nat) (h : parse_request b = some t) :
    ∃ rest, cstr b = ascii "GET /" ++ t ++ ascii " HTTP/1" ++ rest ∧ 32 ∉ t := by
  have hshape : (cstr b).take 5 = ascii "GET /" ∧
      (((cstr b).drop 5).dropWhile (fun x => x != 32)).take 7 = ascii " HTTP/1" := by
    by_contra hn
    unfold parse_request at h
    rw [regexec_request_eq, if_neg hn] at h
    cases h
  have h32 : 32 ∉ ((cstr b).drop 5).takeWhile (fun x => x != 32) := by
    intro hm
    have := List.mem_takeWhile_imp hm
    simp at this
  have hc : cstr b = ascii "GET /" ++ ((cstr b).drop 5).takeWhile (fun x => x != 32) ++
      ascii " HTTP/1" ++ (((cstr b).drop 5).dropWhile (fun x => x != 32)).drop 7 := by
    conv_lhs => rw [← List.take_append_drop 5 (cstr b),
      ← List.takeWhile_append_dropWhile (fun x => x != 32) ((cstr b).drop 5),
      ← List.take_append_drop 7 (((cstr b).drop 5).dropWhile (fun x => x != 32)),
      hshape.1, hshape.2]
    simp only [List.append_assoc]
  have hp := parse_request_of_cstr b _ _ hc h32
  rw [hp] at h
  cases h
  exact ⟨_, hc, h32⟩

theorem matchesGrammar_of_parse_request (b t : List Nat) (h : parse_request b = some t) :
    MatchesGrammar b t ∧ 0 ∉ t := by
  obtain ⟨rest, hc, hs⟩ := cstr_of_parse_request b t h
  refine ⟨⟨rest ++ b.dropWhile (fun c => c != 0), ?_, hs⟩, ?_⟩
  · conv_lhs => rw [← cstr_append_dropWhile b, hc]
    simp only [List.append_assoc]
  · intro h0
    apply cstr_no_nul b
    rw [hc]
    simp [h0]

theorem parse_request_of_matchesGrammar (b t : List Nat) (h : MatchesGrammar b t)
    (h0 : 0 ∉ t) : parse_request b = some t := by
  obtain ⟨rest, hb, hs⟩ := h
  apply parse_request_of_cstr b t (cstr rest) _ hs
  have hall : ∀ x ∈ ascii "GET /" ++ t ++ ascii " HTTP/1", (fun c => c != 0) x = true := by
    intro x hx
    simp only [List.mem_append] at hx
    have hne : x ≠ 0 := by
      rintro rfl
      rcases hx with (hx | hx) | hx
      · exact absurd hx (by decide)
      · exact h0 hx
      · exact absurd hx (by decide)
    simpa using hne
  rw [hb]
  exact takeWhile_append_all _ _ rest hall

/-- C1, as the code has it.  For every received byte string `b` and every `t`, parsing
`b` succeeds with target `t` if and only if `b = "GET /" ++ t ++ " HTTP/1" ++ rest` for
some `rest`, with `t` free of spaces and of NUL bytes; the target is then the bytes
between `"GET /"` and the first following space, undecoded. -/
theorem parse_request_spec (b t : List Nat) :
    (parse_request b = some t ↔ (MatchesGrammar b t ∧ 0 ∉ t)) ∧
    (parse_request b = some t → t = (b.drop 5).takeWhile (fun x => x != 32)) := by
  refine ⟨⟨matchesGrammar_of_parse_request b t,
    fun h => parse_request_of_matchesGrammar b t h.1 h.2⟩, ?_⟩
  intro h
  obtain ⟨⟨rest, hb, hs⟩, _⟩ := matchesGrammar_of_parse_request b t h
  have eg : ascii "GET /" = [71, 69, 84, 32, 47] := rfl
  have eh : ascii " HTTP/1" = [32, 72, 84, 84, 80, 47, 49] := rfl
  have hd : b.drop 5 = t ++ 32 :: ([72, 84, 84, 80, 47, 49] ++ rest) := by
    rw [hb, eg, eh]
    simp
  rw [hd, (span_until 32 t _ hs).1]

/-- C1 fails as stated: a request whose target holds a NUL byte has the shape of the
grammar, with a target free of spaces, and yet does not parse. -/
theorem parse_request_nul_counterexample :
    MatchesGrammar (ascii "GET /a" ++ 0 :: ascii "b HTTP/1.1\r\n\r\n") [97, 0, 98] ∧
    parse_request (ascii "GET /a" ++ 0 :: ascii "b HTTP/1.1\r\n\r\n") = none :=
  ⟨⟨ascii ".1\r\n\r\n", by decide, by decide⟩, by decide⟩

/-! ## Properties of handle_client -/

/-- C6. When the receive returns zero or a negative count, and when the received
bytes do not have the shape of the request grammar (another method than GET, a
malformed request line, another version than `HTTP/1`), `handle_client` never calls
`send`: no byte is sent. -/
theorem handle_client_silent (indet : Nat → Nat) (fs : List Nat → Option (List Nat))
    (bytes_received : Int) (buffer : List Nat) :
    (bytes_received ≤ 0 → handle_client indet fs bytes_received buffer = Outcome.silent) ∧
    ((¬∃ t, MatchesGrammar buffer t) →
      handle_client indet fs bytes_received buffer = Outcome.silent) ∧
    handle_client indet fs 18 (ascii "POST /a HTTP/1.1\r\n") = Outcome.silent ∧
    handle_client indet fs 17 (ascii "GET /a HTTP/2\r\n\r\n") = Outcome.silent ∧
    handle_client indet fs 14 (ascii "GET  /a HTTP/1") = Outcome.silent := by
  refine ⟨?_, ?_, rfl, rfl, rfl⟩
  · intro h
    unfold handle_client
    rw [if_neg (by omega)]
  · intro h
    have hp : parse_request buffer = none := by
      cases hq : parse_request buffer with
      | none => rfl
      | some t => exact absurd ⟨t, (matchesGrammar_of_parse_request buffer t hq).1⟩ h
    unfold handle_client
    rw [hp]
    split <;> rfl

theorem take_chunk (n : Nat) (l : List Nat) :
    l.take n ++ ((l.drop (l.take n).length).take (n - (l.take n).length)) = l.take n := by
  by_cases h : n ≤ l.length
  · have : (l.take n).length = n := by simp [h]
    simp [this]
  · have hl : (l.take n).length = l.length := by
      simp
      omega
    simp [hl]

/-- With enough fuel the read loop appends the file, cut to the room left below
`BUFFER_SIZE`: the loop terminates. -/
theorem read_loop_eq (content : List Nat) :
    ∀ (fuel offset : Nat) (response : List Nat), content.length - offset < fuel →
      read_loop content fuel offset response =
        response ++ (content.drop offset).take (BUFFER_SIZE - response.length)
  | 0, _, _, h => by omega
  | fuel + 1, offset, response, h => by
    unfold read_loop read
    by_cases hg : 0 < ((content.drop offset).take (BUFFER_SIZE - response.length)).length
    · rw [if_pos hg]
      have hle : ((content.drop offset).take (BUFFER_SIZE - response.length)).length ≤
          content.length - offset := by
        simp
      rw [read_loop_eq content fuel _ _ (by omega)]
      have e := take_chunk (BUFFER_SIZE - response.length) (content.drop offset)
      rw [List.drop_drop] at e
      rw [List.append_assoc, List.length_append]
      have e2 : BUFFER_SIZE - (response.length +
          ((content.drop offset).take (BUFFER_SIZE - response.length)).length) =
          BUFFER_SIZE - response.length -
            ((content.drop offset).take (BUFFER_SIZE - response.length)).length := by omega
      rw [e2, e]
    · rw [if_neg hg]
      have : (content.drop offset).take (BUFFER_SIZE - response.length) = [] :=
        List.length_eq_zero.mp (by omega)
      rw [this, List.append_nil]

theorem get_mime_type_cases (e : List Nat) :
    get_mime_type e ∈ [ascii "text/html", ascii "text/plain", ascii "image/jpeg",
      ascii "image/png", ascii "application/octet-stream"] := by
  unfold get_mime_type
  split_ifs <;> simp

theorem header_stored (e : List Nat) :
    cstr (snprintf BUFFER_SIZE (header_200 (get_mime_type e))) =
      header_200 (get_mime_type e) := by
  have h : ∀ m ∈ [ascii "text/html", ascii "text/plain", ascii "image/jpeg",
      ascii "image/png", ascii "application/octet-stream"],
      cstr (snprintf BUFFER_SIZE (header_200 m)) = header_200 m := by decide
  exact h _ (get_mime_type_cases e)

/-- What `build_http_response` writes when the file opens. -/
theorem build_http_response_some (fs : List Nat → Option (List Nat))
    (file_name file_ext content : List Nat) (h : fs file_name = some content) :
    build_http_response fs file_name file_ext =
      (header_200 (get_mime_type file_ext) ++
          content.take (BUFFER_SIZE - (header_200 (get_mime_type file_ext)).length),
        (header_200 (get_mime_type file_ext) ++
          content.take (BUFFER_SIZE - (header_200 (get_mime_type file_ext)).length)).length) := by
  unfold build_http_response
  rw [h]
  simp only [header_stored]
  rw [read_loop_eq content (content.length + 1) 0 _ (by omega)]
  simp

/-- What `handle_client` sends for a request that parses, when the extension fits
`file_ext`. -/
theorem handle_client_parsed (indet : Nat → Nat) (fs : List Nat → Option (List Nat))
    (bytes_received : Int) (buffer t : List Nat) (hn : 0 < bytes_received)
    (hp : parse_request buffer = some t)
    (he : (get_file_extension (cstr (url_decode indet t))).length < 32) :
    handle_client indet fs bytes_received buffer =
      Outcome.sent
        (match fs (cstr (url_decode indet t)) with
         | none => response_404
         | some content =>
           header_200 (get_mime_type (get_file_extension (cstr (url_decode indet t)))) ++
             content.take (BUFFER_SIZE -
               (header_200 (get_mime_type
                 (get_file_extension (cstr (url_decode indet t))))).length)) := by
  unfold handle_client
  rw [if_pos hn, hp]
  simp only [if_pos he]
  cases hf : fs (cstr (url_decode indet t)) with
  | none =>
    rw [build_http_response_none fs _ _ hf]
    simp only [List.take_length]
  | some content =>
    rw [build_http_response_some fs _ _ content hf]
    simp only [List.take_length]

/-- C4, as the code has it.  For every received request that parses with target `t`,
whose decoded path `p` has an extension shorter than the 32 bytes of `file_ext`, and
every filesystem in which `p` opens for reading with content `c`, the bytes sent are
the 200 status line, the `Content-Type` header of the MIME type of the extension of
`p`, a blank line, and the first `BUFFER_SIZE - length header` bytes of `c`: all of
`c`, byte for byte, whenever header and content together fit in `BUFFER_SIZE`. -/
theorem handle_client_200 (indet : Nat → Nat) (fs : List Nat → Option (List Nat))
    (bytes_received : Int) (buffer t c : List Nat) (hn : 0 < bytes_received)
    (hp : parse_request buffer = some t)
    (hf : fs (cstr (url_decode indet t)) = some c)
    (he : (get_file_extension (cstr (url_decode indet t))).length < 32) :
    handle_client indet fs bytes_received buffer =
      Outcome.sent
        (ascii "HTTP/1.1 200 OK\r\nContent-Type: " ++
          get_mime_type (get_file_extension (cstr (url_decode indet t))) ++ ascii "\r\n\r\n" ++
          c.take (BUFFER_SIZE -
            (ascii "HTTP/1.1 200 OK\r\nContent-Type: " ++
              get_mime_type (get_file_extension (cstr (url_decode indet t))) ++
              ascii "\r\n\r\n").length)) ∧
    ((ascii "HTTP/1.1 200 OK\r\nContent-Type: " ++
        get_mime_type (get_file_extension (cstr (url_decode indet t))) ++
        ascii "\r\n\r\n").length + c.length ≤ BUFFER_SIZE →
      handle_client indet fs bytes_received buffer =
        Outcome.sent
          (ascii "HTTP/1.1 200 OK\r\nContent-Type: " ++
            get_mime_type (get_file_extension (cstr (url_decode indet t))) ++
            ascii "\r\n\r\n" ++ c)) := by
  have h := handle_client_parsed indet fs bytes_received buffer t hn hp he
  rw [hf] at h
  simp only [header_200] at h
  refine ⟨h, ?_⟩
  intro hfit
  rw [h, List.take_of_length_le (by omega)]

theorem handle_client_200_witness :
    parse_request (ascii "GET /a%20b.txt HTTP/1.1\r\nHost: x\r\n\r\n") = some (ascii "a%20b.txt") ∧
    handle_client (fun _ => 0) (single_file (ascii "a b.txt") (ascii "hello")) 36
        (ascii "GET /a%20b.txt HTTP/1.1\r\nHost: x\r\n\r\n") =
      Outcome.sent (ascii "HTTP/1.1 200 OK\r\nContent-Type: text/plain\r\n\r\nhello") := by
  refine ⟨by decide, ?_⟩
  rw [(handle_client_200 (fun _ => 0) (single_file (ascii "a b.txt") (ascii "hello")) 36
    (ascii "GET /a%20b.txt HTTP/1.1\r\nHost: x\r\n\r\n") (ascii "a%20b.txt") (ascii "hello")
    (by decide) (by decide) (by decide) (by decide)).2 (by decide)]
  decide

/-- A content longer than the room left below `BUFFER_SIZE` is not sent whole. -/
theorem handle_client_cut (indet : Nat → Nat) (fs : List Nat → Option (List Nat))
    (bytes_received : Int) (buffer t c : List Nat) (hn : 0 < bytes_received)
    (hp : parse_request buffer = some t)
    (hf : fs (cstr (url_decode indet t)) = some c)
    (he : (get_file_extension (cstr (url_decode indet t))).length < 32)
    (hbig : BUFFER_SIZE ≤ c.length) :
    handle_client indet fs bytes_received buffer ≠
      Outcome.sent
        (ascii "HTTP/1.1 200 OK\r\nContent-Type: " ++
          get_mime_type (get_file_extension (cstr (url_decode indet t))) ++
          ascii "\r\n\r\n" ++ c) := by
  have h := handle_client_parsed indet fs bytes_received buffer t hn hp he
  rw [hf] at h
  simp only [header_200] at h
  rw [h]
  intro e
  injection e with e
  have e2 := congrArg List.length e
  simp only [List.length_append, List.length_take] at e2
  have e3 : (ascii "HTTP/1.1 200 OK\r\nContent-Type: ").length = 31 := rfl
  have hB : BUFFER_SIZE = 104857600 := rfl
  rw [e3, hB] at e2
  rw [hB] at hbig
  omega

/-- C4 fails as stated: a file of `BUFFER_SIZE` bytes is opened and the request
parses, yet the bytes sent are not the header followed by the whole content. -/
theorem handle_client_large_file_counterexample :
    parse_request (ascii "GET /a HTTP/1.1\r\n\r\n") = some (ascii "a") ∧
    single_file (ascii "a") (List.replicate 104857600 65)
        (cstr (url_decode (fun _ => 0) (ascii "a"))) =
      some (List.replicate 104857600 65) ∧
    handle_client (fun _ => 0) (single_file (ascii "a") (List.replicate 104857600 65)) 19
        (ascii "GET /a HTTP/1.1\r\n\r\n") ≠
      Outcome.sent
        (ascii "HTTP/1.1 200 OK\r\nContent-Type: " ++
          get_mime_type (get_file_extension (cstr (url_decode (fun _ => 0) (ascii "a")))) ++
          ascii "\r\n\r\n" ++ List.replicate 104857600 65) := by
  have hp : parse_request (ascii "GET /a HTTP/1.1\r\n\r\n") = some (ascii "a") := by decide
  have hf : single_file (ascii "a") (List.replicate 104857600 65)
      (cstr (url_decode (fun _ => 0) (ascii "a"))) = some (List.replicate 104857600 65) := by
    unfold single_file
    rw [if_pos (by decide)]
  refine ⟨hp, hf, ?_⟩
  apply handle_client_cut (fun _ => 0) _ 19 _ (ascii "a") _ (by decide) hp hf (by decide)
  rw [List.length_replicate]
  exact Nat.le_refl _

/-- C9, as the code has it.  For every received request that parses, whose decoded
path opens for reading and has no extension or an extension that is shorter than the
32 bytes of `file_ext` and is none of `html`, `htm`, `txt`, `jpg`, `jpeg`, `png`
ignoring case, the response sent starts with the 200 status line followed by the
header `Content-Type: application/octet-stream`. -/
theorem handle_client_default_mime (indet : Nat → Nat) (fs : List Nat → Option (List Nat))
    (bytes_received : Int) (buffer t c : List Nat) (hn : 0 < bytes_received)
    (hp : parse_request buffer = some t)
    (hf : fs (cstr (url_decode indet t)) = some c)
    (he : (get_file_extension (cstr (url_decode indet t))).length < 32)
    (hu : lowercase (get_file_extension (cstr (url_decode indet t))) ∉
      [ascii "html", ascii "htm", ascii "txt", ascii "jpg", ascii "jpeg", ascii "png"]) :
    ∃ body,
      handle_client indet fs bytes_received buffer =
        Outcome.sent (ascii "HTTP/1.1 200 OK\r\n" ++
          ascii "Content-Type: application/octet-stream" ++ (ascii "\r\n\r\n" ++ body)) ∧
      Carries (ascii "HTTP/1.1 200 OK\r\n" ++
          ascii "Content-Type: application/octet-stream" ++ (ascii "\r\n\r\n" ++ body))
        (ascii "Content-Type: application/octet-stream") := by
  have h := handle_client_parsed indet fs bytes_received buffer t hn hp he
  rw [hf] at h
  have h0 : 0 ∉ get_file_extension (cstr (url_decode indet t)) := fun hm =>
    cstr_no_nul _ ((get_file_extension_suffix _).subset hm)
  have hm : get_mime_type (get_file_extension (cstr (url_decode indet t))) =
      ascii "application/octet-stream" := by
    rw [get_mime_type_eq_table _ h0]
    simp only [List.mem_cons, List.mem_singleton, List.not_mem_nil, or_false, not_or] at hu
    obtain ⟨u1, u2, u3, u4, u5, u6⟩ := hu
    simp only [u1, u2, u3, u4, u5, u6, or_self, if_false]
  rw [hm] at h
  refine ⟨c.take (BUFFER_SIZE - (header_200 (ascii "application/octet-stream")).length), ?_,
    ⟨_, _, rfl⟩⟩
  rw [h]
  rfl

theorem handle_client_default_mime_witness :
    ∃ body,
      handle_client (fun _ => 0) (single_file (ascii "data.bin") [1, 2, 3]) 26
          (ascii "GET /data.bin HTTP/1.1\r\n\r\n") =
        Outcome.sent (ascii "HTTP/1.1 200 OK\r\n" ++
          ascii "Content-Type: application/octet-stream" ++ (ascii "\r\n\r\n" ++ body)) ∧
      Carries (ascii "HTTP/1.1 200 OK\r\n" ++
          ascii "Content-Type: application/octet-stream" ++ (ascii "\r\n\r\n" ++ body))
        (ascii "Content-Type: application/octet-stream") :=
  handle_client_default_mime (fun _ => 0) (single_file (ascii "data.bin") [1, 2, 3]) 26
    (ascii "GET /data.bin HTTP/1.1\r\n\r\n") (ascii "data.bin") [1, 2, 3]
    (by decide) (by decide) (by decide) (by decide) (by decide)

/-- C9 fails as stated: a request for a missing file with an unrecognised extension
parses, and the response sent is the 404 one, which carries `Content-Type: text/plain`
and not `Content-Type: application/octet-stream`. -/
theorem handle_client_missing_file_counterexample :
    parse_request (ascii "GET /nofile.bin HTTP/1.1\r\n\r\n") = some (ascii "nofile.bin") ∧
    lowercase (get_file_extension (cstr (url_decode (fun _ => 0) (ascii "nofile.bin")))) ∉
      [ascii "html", ascii "htm", ascii "txt", ascii "jpg", ascii "jpeg", ascii "png"] ∧
    handle_client (fun _ => 0) (fun _ => none) 28 (ascii "GET /nofile.bin HTTP/1.1\r\n\r\n") =
      Outcome.sent
        (ascii "HTTP/1.1 404 Not Found\r\nContent-Type: text/plain\r\n\r\n404 Not Found") ∧
    ¬Carries (ascii "HTTP/1.1 404 Not Found\r\nContent-Type: text/plain\r\n\r\n404 Not Found")
      (ascii "Content-Type: application/octet-stream") := by
  refine ⟨by decide, by decide, by decide, ?_⟩
  rintro ⟨pre, post, h⟩
  have hm : 109 ∈
      ascii "HTTP/1.1 404 Not Found\r\nContent-Type: text/plain\r\n\r\n404 Not Found" := by
    rw [h]
    have : 109 ∈ ascii "Content-Type: application/octet-stream" := by decide
    simp [this]
  exact absurd hm (by decide)

end Webserver
